import Mathlib

/-!
Shallow embedding of the core of the base-2..64 calculator
(`1~64進数電卓ver.1.0.0.py`): the digit alphabet `DIGIT_MAP`, the base
codec (`convert_to_decimal`, `convert_from_decimal`), the live-input
filter (`BaseInput.insert_text`) and the operation dispatch
(`on_button`).  Strings are modelled as `List Char`; Python's
arbitrary-precision `int` is modelled as `Int`; the exceptions raised by
the source become explicit error values.
-/

namespace BaseCalc

/-- The fixed 64-symbol digit alphabet, source line 15:
`DIGIT_MAP = "0123456789ABCDEFGHIJKLMNOPQRSTUVWXYZabcdefghijklmnopqrstuvwxyz+/"`. -/
def DIGIT_MAP : List Char :=
  "0123456789ABCDEFGHIJKLMNOPQRSTUVWXYZabcdefghijklmnopqrstuvwxyz+/".toList

/-- Symbol → digit value lookup; `none` when the symbol is absent.
This is the alphabet contract `valueFor`; the source realises it as
`DIGIT_MAP.find(c)` (which returns -1 for absent, see `digitIndex`). -/
def valueFor (c : Char) : Option Nat :=
  DIGIT_MAP.indexOf? c

/-- Digit value → symbol lookup, realised in the source as indexing
`DIGIT_MAP[idx]`.  The fallback `' '` is never reached for values < 64. -/
def symbolFor (i : Nat) : Char :=
  DIGIT_MAP.getD i ' '

/-- Python's `DIGIT_MAP.find(c)`: the index of `c` in `DIGIT_MAP`, or -1
when `c` does not occur (source line 168). -/
def digitIndex (c : Char) : Int :=
  match valueFor c with
  | some i => (i : Int)
  | none => -1

/-- The whitespace characters removed by Python's `str.strip()`
(modelled with the ASCII whitespace set). -/
def isPySpace (c : Char) : Bool :=
  c = ' ' || c = '\t' || c = '\n' || c = '\r' || c = '\x0b' || c = '\x0c'

/-- Python's `s.strip()`: drop leading and trailing whitespace
(source line 161). -/
def pyStrip (s : List Char) : List Char :=
  (((s.dropWhile isPySpace).reverse.dropWhile isPySpace)).reverse

/-- The failures `convert_to_decimal` can raise: `ValueError("Input is
empty.")` (line 163) and `ValueError(f"'{c}' is invalid for base {base}.")`
(line 170). -/
inductive ParseError where
  | EmptyInput : ParseError
  | InvalidDigit : Char → Nat → ParseError
deriving DecidableEq, Repr

/-- The digit-accumulation loop of `convert_to_decimal`, source lines
166-171: for each character take `idx = DIGIT_MAP.find(c)`, fail if
`idx < 0 or idx >= base`, else `n = n * base + idx`. -/
def parseDigits (base : Nat) : List Char → Int → Except ParseError Int
  | [], n => .ok n
  | c :: cs, n =>
    let idx := digitIndex c
    if idx < 0 ∨ (base : Int) ≤ idx then .error (.InvalidDigit c base)
    else parseDigits base cs (n * base + idx)

/-- The decoder `convert_to_decimal` (source lines 159-172): strip whitespace, fail
on empty, then run the digit-accumulation loop starting from 0.  The
radix is the spinner value, passed here as the `base` argument. -/
def convert_to_decimal (s : List Char) (base : Nat) : Except ParseError Int :=
  let t := pyStrip s
  if t.isEmpty then .error .EmptyInput
  else parseDigits base t 0

/-- The `while n > 0` loop of `convert_from_decimal` (source lines
184-187): collect `DIGIT_MAP[n % base]` least-significant first and
divide `n` by `base`.  The source loop only terminates for `base ≥ 2`
(the spinner guarantees 2-64); the `base < 2` guard makes the Lean
recursion total and is never taken under that guarantee. -/
def toDigitsRev (base : Nat) (n : Nat) : List Char :=
  if h : n = 0 ∨ base < 2 then []
  else DIGIT_MAP.getD (n % base) ' ' :: toDigitsRev base (n / base)
decreasing_by
  push_neg at h
  exact Nat.div_lt_self (Nat.pos_of_ne_zero h.1) (by omega)

/-- The encoder `convert_from_decimal` (source lines 174-188): separate the sign,
return `'0'` for zero, else emit the collected digits most-significant
first with the sign prepended. -/
def convert_from_decimal (n : Int) (base : Nat) : List Char :=
  let sign : List Char := if n < 0 then ['-'] else []
  let m : Nat := n.natAbs
  if m = 0 then ['0']
  else sign ++ (toDigitsRev base m).reverse

/-- The per-character classification of `BaseInput.insert_text` (source
lines 57-69): digits map to 0-9, uppercase to 10-35, lowercase to 36-61,
`'+'` to 62 only when `base > 62`, `'/'` to 63 only when `base > 63`;
everything else is skipped (`continue`). -/
def charIdx (base : Nat) (c : Char) : Option Nat :=
  if '0' ≤ c ∧ c ≤ '9' then some (c.toNat - '0'.toNat)
  else if 'A' ≤ c ∧ c ≤ 'Z' then some (c.toNat - 'A'.toNat + 10)
  else if 'a' ≤ c ∧ c ≤ 'z' then some (c.toNat - 'a'.toNat + 36)
  else if c = '+' ∧ base > 62 then some 62
  else if c = '/' ∧ base > 63 then some 63
  else none

/-- The live-input filter of `BaseInput.insert_text` (source lines
55-74): keep `DIGIT_MAP[idx]` for each classified character whose index
is below the base. -/
def filterInput (s : List Char) (base : Nat) : List Char :=
  match s with
  | [] => []
  | c :: cs =>
    match charIdx base c with
    | none => filterInput cs base
    | some idx =>
      if idx < base then DIGIT_MAP.getD idx ' ' :: filterInput cs base
      else filterInput cs base

/-- The operation tags dispatched by `on_button` (source lines 201-218);
`clear` returns before any decoding and is not part of the arithmetic
dispatch. -/
inductive Operation where
  | add | subtract | multiply | divide | band | bor | bxor
deriving DecidableEq, Repr

/-- The failures `on_button` catches: a propagated `ValueError` from
`convert_to_decimal`, and `ZeroDivisionError` (source lines 208-209,
228-231). -/
inductive EvalError where
  | parseErr : ParseError → EvalError
  | DivisionByZero : EvalError
deriving DecidableEq, Repr

/-- Python's `str(r)` on an integer result (source line 221). -/
def str_of_int (n : Int) : List Char :=
  (toString n).toList

/-- The calculation path of `on_button` (source lines 197-226): decode
both operands (first failure propagates, operand 1 first), dispatch on
the operation (`a // b` is floor division, hence `Int.fdiv`; the bitwise
operators on Python ints are the sign-extended `Int.land`/`lor`/`xor`),
then render the result both in the selected base and in decimal. -/
def evaluate (sa sb : List Char) (base : Nat) (op : Operation) :
    Except EvalError (List Char × List Char) :=
  match convert_to_decimal sa base with
  | .error e => .error (.parseErr e)
  | .ok a =>
    match convert_to_decimal sb base with
    | .error e => .error (.parseErr e)
    | .ok b =>
      match op with
      | .add => .ok (convert_from_decimal (a + b) base, str_of_int (a + b))
      | .subtract => .ok (convert_from_decimal (a - b) base, str_of_int (a - b))
      | .multiply => .ok (convert_from_decimal (a * b) base, str_of_int (a * b))
      | .divide =>
        if b = 0 then .error .DivisionByZero
        else .ok (convert_from_decimal (a.fdiv b) base, str_of_int (a.fdiv b))
      | .band => .ok (convert_from_decimal (a.land b) base, str_of_int (a.land b))
      | .bor => .ok (convert_from_decimal (a.lor b) base, str_of_int (a.lor b))
      | .bxor => .ok (convert_from_decimal (Int.xor a b) base, str_of_int (Int.xor a b))

/-! ### Alphabet facts -/

theorem digitIndex_getD : ∀ d < 64, digitIndex (DIGIT_MAP.getD d ' ') = (d : Int) := by
  decide

theorem notSpace_getD : ∀ d < 64, isPySpace (DIGIT_MAP.getD d ' ') = false := by
  decide

theorem valueFor_eq_none_of_not_mem (c : Char) (h : c ∉ DIGIT_MAP) :
    valueFor c = none := by
  rw [valueFor, List.indexOf?_eq_none_iff]
  intro x hx hbe
  exact h (beq_iff_eq.mp hbe ▸ hx)

/-! ### Stripping lemmas -/

theorem dropWhile_eq_self_of_all (p : Char → Bool) (l : List Char)
    (h : ∀ c ∈ l, p c = false) : l.dropWhile p = l := by
  cases l with
  | nil => rfl
  | cons c cs => rw [List.dropWhile_cons, h c (List.mem_cons_self c cs)]; simp

theorem pyStrip_eq_self (l : List Char) (h : ∀ c ∈ l, isPySpace c = false) :
    pyStrip l = l := by
  unfold pyStrip
  rw [dropWhile_eq_self_of_all _ _ h,
    dropWhile_eq_self_of_all _ _ (fun c hc => h c (List.mem_reverse.mp hc)),
    List.reverse_reverse]

theorem pyStrip_eq_nil_iff (s : List Char) :
    pyStrip s = [] ↔ ∀ c ∈ s, isPySpace c = true := by
  unfold pyStrip
  rw [List.reverse_eq_nil_iff, List.dropWhile_eq_nil_iff]
  constructor
  · intro h c hc
    rcases List.mem_append.mp
        ((List.takeWhile_append_dropWhile (p := isPySpace) (l := s)) ▸ hc) with h1 | h2
    · exact List.mem_takeWhile_imp h1
    · exact h c (List.mem_reverse.mpr h2)
  · intro h c hc
    exact h c ((List.dropWhile_sublist _).subset (List.mem_reverse.mp hc))

/-! ### Digit-loop lemmas -/

theorem parseDigits_ok_of_valid (base : Nat) (l : List Char)
    (h : ∀ c ∈ l, ¬(digitIndex c < 0 ∨ (base : Int) ≤ digitIndex c)) :
    ∀ acc : Int, parseDigits base l acc =
      .ok (l.foldl (fun a c => a * base + digitIndex c) acc) := by
  induction l with
  | nil => intro acc; rfl
  | cons c cs ih =>
    intro acc
    rw [parseDigits, if_neg (h c (List.mem_cons_self c cs)), List.foldl_cons]
    exact ih (fun x hx => h x (List.mem_cons_of_mem c hx)) _

theorem parseDigits_error_shape (base : Nat) (l : List Char) (acc : Int)
    (e : ParseError) (h : parseDigits base l acc = .error e) :
    ∃ c ∈ l, e = .InvalidDigit c base ∧
      (digitIndex c < 0 ∨ (base : Int) ≤ digitIndex c) := by
  induction l generalizing acc with
  | nil => exact absurd h (by simp [parseDigits])
  | cons c cs ih =>
    rw [parseDigits] at h
    by_cases hc : digitIndex c < 0 ∨ (base : Int) ≤ digitIndex c
    · rw [if_pos hc] at h
      exact ⟨c, List.mem_cons_self c cs, (Except.error.inj h).symm, hc⟩
    · rw [if_neg hc] at h
      obtain ⟨d, hd, he, hv⟩ := ih _ h
      exact ⟨d, List.mem_cons_of_mem c hd, he, hv⟩

theorem parseDigits_error_of_invalid (base : Nat) (l : List Char)
    (h : ∃ c ∈ l, digitIndex c < 0 ∨ (base : Int) ≤ digitIndex c) :
    ∀ acc : Int, ∃ c, parseDigits base l acc = .error (.InvalidDigit c base) := by
  induction l with
  | nil => exact absurd h (by simp)
  | cons c cs ih =>
    intro acc
    by_cases hc : digitIndex c < 0 ∨ (base : Int) ≤ digitIndex c
    · exact ⟨c, by rw [parseDigits, if_pos hc]⟩
    · obtain ⟨d, hd, hv⟩ := h
      have hdc : d ∈ cs := by
        rcases List.mem_cons.mp hd with rfl | h2
        · exact absurd hv hc
        · exact h2
      obtain ⟨x, hx⟩ := ih ⟨d, hdc, hv⟩ (acc * base + digitIndex c)
      exact ⟨x, by rw [parseDigits, if_neg hc]; exact hx⟩

theorem parseDigits_nonneg (base : Nat) (l : List Char) :
    ∀ acc v : Int, 0 ≤ acc → parseDigits base l acc = .ok v → 0 ≤ v := by
  induction l with
  | nil =>
    intro acc v hacc h
    rw [parseDigits] at h
    exact (Except.ok.inj h) ▸ hacc
  | cons c cs ih =>
    intro acc v hacc h
    rw [parseDigits] at h
    by_cases hc : digitIndex c < 0 ∨ (base : Int) ≤ digitIndex c
    · rw [if_pos hc] at h; exact absurd h (by simp)
    · rw [if_neg hc] at h
      push_neg at hc
      exact ih _ v (add_nonneg (mul_nonneg hacc (Int.natCast_nonneg base)) hc.1) h

theorem convert_to_decimal_of_strip_ne (s : List Char) (base : Nat)
    (h : pyStrip s ≠ []) :
    convert_to_decimal s base = parseDigits base (pyStrip s) 0 := by
  rw [convert_to_decimal, if_neg (by simpa [List.isEmpty_iff] using h)]

/-! ### Encoding-loop lemmas -/

theorem toDigitsRev_nil_of_zero (base : Nat) : toDigitsRev base 0 = [] := by
  rw [toDigitsRev]; simp

theorem toDigitsRev_step (base n : Nat) (h : ¬(n = 0 ∨ base < 2)) :
    toDigitsRev base n
      = DIGIT_MAP.getD (n % base) ' ' :: toDigitsRev base (n / base) := by
  rw [toDigitsRev, dif_neg h]

theorem toDigitsRev_ne_nil (base n : Nat) (hb : 2 ≤ base) (hn : n ≠ 0) :
    toDigitsRev base n ≠ [] := by
  rw [toDigitsRev, dif_neg (by omega)]
  simp

theorem mem_toDigitsRev (base n : Nat) :
    ∀ c ∈ toDigitsRev base n, ∃ d, d < base ∧ c = DIGIT_MAP.getD d ' ' := by
  induction n using Nat.strong_induction_on with
  | _ n ih =>
    rw [toDigitsRev]
    by_cases h : n = 0 ∨ base < 2
    · rw [dif_pos h]; simp
    · rw [dif_neg h]
      push_neg at h
      intro c hc
      rcases List.mem_cons.mp hc with rfl | h2
      · exact ⟨n % base, Nat.mod_lt _ (by omega), rfl⟩
      · exact ih (n / base) (Nat.div_lt_self (Nat.pos_of_ne_zero h.1) (by omega)) c h2

theorem foldl_toDigitsRev (base : Nat) (hb2 : 2 ≤ base) (hb64 : base ≤ 64) :
    ∀ n : Nat, ∀ acc : Int,
      ((toDigitsRev base n).reverse).foldl (fun a c => a * base + digitIndex c) acc
        = acc * (base : Int) ^ (toDigitsRev base n).length + n := by
  intro n
  induction n using Nat.strong_induction_on with
  | _ n ih =>
    intro acc
    rw [toDigitsRev]
    by_cases h : n = 0 ∨ base < 2
    · rcases h with rfl | h2
      · simp [toDigitsRev_nil_of_zero]
      · omega
    · rw [dif_neg h]
      push_neg at h
      rw [List.reverse_cons, List.foldl_append, List.foldl_cons, List.foldl_nil,
        ih (n / base) (Nat.div_lt_self (Nat.pos_of_ne_zero h.1) (by omega)) acc,
        digitIndex_getD (n % base) (lt_of_lt_of_le (Nat.mod_lt _ (by omega)) hb64),
        List.length_cons]
      have hsplit : ((n / base : Nat) : Int) * (base : Int) + ((n % base : Nat) : Int)
          = (n : Int) := by
        have h2 : n / base * base + n % base = n := by
          rw [mul_comm]; exact Nat.div_add_mod n base
        exact_mod_cast h2
      calc (acc * (base : Int) ^ (toDigitsRev base (n / base)).length + (n / base : Nat))
            * (base : Int) + (n % base : Nat)
          = acc * ((base : Int) ^ (toDigitsRev base (n / base)).length * base)
              + (((n / base : Nat) : Int) * base + ((n % base : Nat) : Int)) := by ring
        _ = acc * (base : Int) ^ ((toDigitsRev base (n / base)).length + 1) + (n : Int) := by
            rw [hsplit, pow_succ]

/-! ### Claims -/

/-- C1 counterexample: `"1"` is a valid unsigned digit string for radix 10
(it parses to 1), yet `parse("-1", 10)` does not succeed with -1: it fails
with `InvalidDigit('-', 10)`, because `convert_to_decimal` has no sign
handling and `'-'` is not in the alphabet. -/
theorem C1_counterexample :
    convert_to_decimal ['1'] 10 = .ok 1 ∧
      convert_to_decimal ['-', '1'] 10 = .error (.InvalidDigit '-' 10) :=
  ⟨rfl, rfl⟩

/-- C1 (amended): `parse` accepts no leading `-` sign marker at all: for
every radix and every string `s`, `parse('-' + s, r)` fails with
`InvalidDigit('-', r)`; no sign is ever applied. -/
theorem C1_no_sign_handling (s : List Char) (base : Nat) :
    convert_to_decimal ('-' :: s) base = .error (.InvalidDigit '-' base) := by
  obtain ⟨t, ht⟩ : ∃ t, pyStrip ('-' :: s) = '-' :: t := by
    unfold pyStrip
    rw [List.dropWhile_cons]
    have hm : isPySpace '-' = false := rfl
    rw [hm]
    simp only [Bool.false_eq_true, if_false, List.reverse_cons, List.dropWhile_append]
    split
    · exact ⟨[], by rw [List.dropWhile_cons, hm]; simp⟩
    · exact ⟨_, by rw [List.reverse_append]; rfl⟩
  have hne : pyStrip ('-' :: s) ≠ [] := by rw [ht]; simp
  rw [convert_to_decimal_of_strip_ne _ _ hne, ht, parseDigits,
    if_pos (Or.inl (by decide))]

/-- C2 counterexample: the round-trip fails for the negative value -1 in
radix 10: `format(-1, 10) = "-1"`, but parsing that back fails with
`InvalidDigit('-', 10)` instead of returning -1. -/
theorem C2_counterexample :
    convert_to_decimal (convert_from_decimal (-1) 10) 10
      = .error (.InvalidDigit '-' 10) := by
  have ht : toDigitsRev 10 1 = ['1'] := by
    rw [toDigitsRev_step 10 1 (by norm_num), show (1 : Nat) % 10 = 1 from rfl,
      show (1 : Nat) / 10 = 0 from rfl, toDigitsRev_nil_of_zero]
    rfl
  have h1 : convert_from_decimal (-1) 10 = ['-', '1'] := by
    simp only [convert_from_decimal]
    norm_num [ht]
  rw [h1]
  rfl

/-- C2 (amended): the round-trip holds for every non-negative Integer
Value: for every radix `r ∈ [2,64]` and every `v ≥ 0`,
`parse(format(v, r), r)` succeeds and returns `v`.  (For negative `v` the
encoder emits a `-` prefix the parser cannot read back.) -/
theorem C2_roundtrip_nonneg (v : Int) (base : Nat) (hb2 : 2 ≤ base)
    (hb64 : base ≤ 64) (hv : 0 ≤ v) :
    convert_to_decimal (convert_from_decimal v base) base = .ok v := by
  rcases eq_or_lt_of_le hv with heq | hpos
  · rw [← heq, show convert_from_decimal 0 base = ['0'] from rfl,
      convert_to_decimal_of_strip_ne _ _ (by decide),
      show pyStrip ['0'] = ['0'] from rfl, parseDigits,
      if_neg (by rw [show digitIndex '0' = 0 from rfl]; omega), parseDigits]
    rw [show digitIndex '0' = 0 from rfl]
    norm_num
  · have hm : v.natAbs ≠ 0 := by omega
    have hsign : ¬v < 0 := not_lt.mpr hv
    have hfmt : convert_from_decimal v base = (toDigitsRev base v.natAbs).reverse := by
      rw [convert_from_decimal]
      simp only [if_neg hsign, if_neg hm, List.nil_append]
    have hmem : ∀ c ∈ (toDigitsRev base v.natAbs).reverse,
        ∃ d, d < base ∧ c = DIGIT_MAP.getD d ' ' :=
      fun c hc => mem_toDigitsRev base v.natAbs c (List.mem_reverse.mp hc)
    have hnospace : ∀ c ∈ (toDigitsRev base v.natAbs).reverse, isPySpace c = false := by
      intro c hc
      obtain ⟨d, hd, rfl⟩ := hmem c hc
      exact notSpace_getD d (lt_of_lt_of_le hd hb64)
    have hstrip := pyStrip_eq_self _ hnospace
    have hne : (toDigitsRev base v.natAbs).reverse ≠ [] := by
      rw [ne_eq, List.reverse_eq_nil_iff]
      exact toDigitsRev_ne_nil base v.natAbs hb2 hm
    have hvalid : ∀ c ∈ (toDigitsRev base v.natAbs).reverse,
        ¬(digitIndex c < 0 ∨ (base : Int) ≤ digitIndex c) := by
      intro c hc
      obtain ⟨d, hd, rfl⟩ := hmem c hc
      rw [digitIndex_getD d (lt_of_lt_of_le hd hb64)]
      omega
    rw [hfmt, convert_to_decimal_of_strip_ne _ _ (by rw [hstrip]; exact hne), hstrip,
      parseDigits_ok_of_valid base _ hvalid 0,
      foldl_toDigitsRev base hb2 hb64 v.natAbs 0]
    simp [Int.natAbs_of_nonneg hv]

/-- C2 witness: 255 round-trips through radix 16 (`format` gives `"FF"`,
which parses back to 255). -/
theorem C2_roundtrip_nonneg_witness :
    convert_to_decimal (convert_from_decimal 255 16) 16 = .ok 255 :=
  C2_roundtrip_nonneg 255 16 (by decide) (by decide) (by decide)

/-- C3 counterexample: `evaluate("-10", "3", 10, divide)` does not
succeed with -4: it fails with `InvalidDigit('-', 10)` because the
left operand cannot be decoded (no sign handling in the parser). -/
theorem C3_counterexample :
    evaluate ['-', '1', '0'] ['3'] 10 .divide
      = .error (.parseErr (.InvalidDigit '-' 10)) :=
  rfl

/-- C3 (amended): whenever both operands decode, divide fails with
`DivisionByZero` exactly when the right operand is 0, and otherwise
computes floor division (`Int.fdiv`, rounding toward negative infinity);
the concrete input `evaluate("-10", "3", 10, divide)`, however, fails
with `InvalidDigit('-', 10)` since the parser rejects the sign. -/
theorem C3_divide_floor (sa sb : List Char) (base : Nat) (a b : Int)
    (ha : convert_to_decimal sa base = .ok a)
    (hb : convert_to_decimal sb base = .ok b) :
    evaluate sa sb base .divide =
      if b = 0 then .error .DivisionByZero
      else .ok (convert_from_decimal (a.fdiv b) base, str_of_int (a.fdiv b)) := by
  rw [evaluate, ha, hb]

/-- C3 witness: `evaluate("10", "3", 10, divide)` succeeds with quotient
3 (`10 // 3 = 3`), and `evaluate("5", "0", 10, divide)` fails with
`DivisionByZero`. -/
theorem C3_divide_floor_witness :
    evaluate ['1', '0'] ['3'] 10 .divide = .ok (['3'], ['3']) ∧
      evaluate ['5'] ['0'] 10 .divide = .error .DivisionByZero := by
  constructor
  · rw [C3_divide_floor ['1', '0'] ['3'] 10 10 3 rfl rfl, if_neg (by norm_num)]
    have hq : (10 : Int).fdiv 3 = 3 := rfl
    have ht : toDigitsRev 10 3 = ['3'] := by
      rw [toDigitsRev_step 10 3 (by norm_num), show (3 : Nat) % 10 = 3 from rfl,
        show (3 : Nat) / 10 = 0 from rfl, toDigitsRev_nil_of_zero]
      rfl
    have h3 : convert_from_decimal 3 10 = ['3'] := by
      simp only [convert_from_decimal]
      norm_num [ht]
    rw [hq, h3]
    rfl
  · rw [C3_divide_floor ['5'] ['0'] 10 5 0 rfl rfl, if_pos rfl]

/-- C4 counterexample: `parse("-1", 10)` fails with
`InvalidDigit('-', 10)` even though the digit portion after the optional
sign (`"1"`) contains only digits legal for radix 10 — so the stated
"if and only if" over the digit portion is false. -/
theorem C4_counterexample :
    convert_to_decimal ['-', '1'] 10 = .error (.InvalidDigit '-' 10) ∧
      ¬(digitIndex '1' < 0 ∨ (10 : Int) ≤ digitIndex '1') :=
  ⟨rfl, by decide⟩

/-- C4 (amended): `parse` fails with `InvalidDigit(c, r)` iff some
character of the whole trimmed string — a leading `-` included, since no
sign is stripped — is absent from the alphabet or has value ≥ r; and
`parse("G", 16)` fails with `InvalidDigit('G', 16)`. -/
theorem C4_invalid_digit (s : List Char) (base : Nat) :
    (∀ c r, convert_to_decimal s base = .error (.InvalidDigit c r) →
      r = base ∧ c ∈ pyStrip s ∧
        (digitIndex c < 0 ∨ (base : Int) ≤ digitIndex c)) ∧
    ((∃ c ∈ pyStrip s, digitIndex c < 0 ∨ (base : Int) ≤ digitIndex c) →
      ∃ c, convert_to_decimal s base = .error (.InvalidDigit c base)) ∧
    convert_to_decimal ['G'] 16 = .error (.InvalidDigit 'G' 16) := by
  refine ⟨?_, ?_, rfl⟩
  · intro c r h
    by_cases hne : pyStrip s = []
    · rw [convert_to_decimal, if_pos (by simpa [List.isEmpty_iff] using hne)] at h
      exact absurd (Except.error.inj h) (by simp)
    · rw [convert_to_decimal_of_strip_ne s base hne] at h
      obtain ⟨d, hd, he, hv⟩ := parseDigits_error_shape base (pyStrip s) 0 _ h
      obtain ⟨rfl, rfl⟩ : c = d ∧ r = base := by
        cases he; exact ⟨rfl, rfl⟩
      exact ⟨rfl, hd, hv⟩
  · rintro ⟨c, hc, hv⟩
    have hne : pyStrip s ≠ [] := List.ne_nil_of_mem hc
    rw [convert_to_decimal_of_strip_ne s base hne]
    exact parseDigits_error_of_invalid base (pyStrip s) ⟨c, hc, hv⟩ 0

/-- C4 witness: the forward direction at `parse("G", 16)` locates the
offending `'G'` in the trimmed input, and the backward direction at
`"-"` in radix 10 produces an `InvalidDigit` failure. -/
theorem C4_invalid_digit_witness :
    ('G' ∈ pyStrip ['G'] ∧ (digitIndex 'G' < 0 ∨ (16 : Int) ≤ digitIndex 'G')) ∧
      ∃ c, convert_to_decimal ['-'] 10 = .error (.InvalidDigit c 10) :=
  ⟨((C4_invalid_digit ['G'] 16).1 'G' 16 rfl).2,
    (C4_invalid_digit ['-'] 10).2.1 ⟨'-', by decide, by decide⟩⟩

/-- C1 witness: prepending the sign to the valid digit string `"7"` in
radix 16 produces the `InvalidDigit` failure. -/
theorem C1_no_sign_handling_witness :
    convert_to_decimal ['-', '7'] 16 = .error (.InvalidDigit '-' 16) :=
  C1_no_sign_handling ['7'] 16

/-- C5: `parse(s, r)` fails with `EmptyInput` iff `s` is empty or
whitespace-only after trimming; otherwise parsing proceeds on the trimmed
string (the digit loop runs on `pyStrip s`). -/
theorem C5_empty_input (s : List Char) (base : Nat) :
    (convert_to_decimal s base = .error .EmptyInput ↔
      ∀ c ∈ s, isPySpace c = true) ∧
    (pyStrip s ≠ [] →
      convert_to_decimal s base = parseDigits base (pyStrip s) 0) := by
  refine ⟨?_, convert_to_decimal_of_strip_ne s base⟩
  rw [← pyStrip_eq_nil_iff]
  constructor
  · intro h
    by_contra hne
    rw [convert_to_decimal_of_strip_ne s base hne] at h
    obtain ⟨c, _, he, _⟩ := parseDigits_error_shape base (pyStrip s) 0 _ h
    exact ParseError.noConfusion he
  · intro h
    rw [convert_to_decimal, if_pos (by simpa [List.isEmpty_iff] using h)]

/-- C5 witness: the whitespace-only string `" "` fails with `EmptyInput`,
and the non-blank string `"7"` is parsed by the digit loop on its trimmed
form. -/
theorem C5_empty_input_witness :
    convert_to_decimal [' '] 10 = .error .EmptyInput ∧
      convert_to_decimal ['7'] 10 = parseDigits 10 (pyStrip ['7']) 0 :=
  ⟨(C5_empty_input [' '] 10).1.mpr (by decide),
    (C5_empty_input ['7'] 10).2 (by decide)⟩

/-- C6: the digit alphabet is bijective on its 64 values: looking up the
symbol for any value `i < 64` returns `i`, and any character outside the
alphabet has no value. -/
theorem C6_alphabet_bijective :
    (∀ i < 64, valueFor (symbolFor i) = some i) ∧
      ∀ c : Char, c ∉ DIGIT_MAP → valueFor c = none :=
  ⟨by decide, valueFor_eq_none_of_not_mem⟩

/-- C6 witness: value 63 round-trips through `symbolFor`/`valueFor`, and
`'-'` (not in the alphabet) has no value. -/
theorem C6_alphabet_bijective_witness :
    valueFor (symbolFor 63) = some 63 ∧ valueFor '-' = none :=
  ⟨C6_alphabet_bijective.1 63 (by decide),
    C6_alphabet_bijective.2 '-' (by decide)⟩

/-- C8: formatting zero yields the single symbol `"0"` with no sign
prefix, for every radix. -/
theorem C8_format_zero (base : Nat) : convert_from_decimal 0 base = ['0'] :=
  rfl

/-- C8 witness: zero formats as `"0"` in radix 2. -/
theorem C8_format_zero_witness : convert_from_decimal 0 2 = ['0'] :=
  C8_format_zero 2

/-- C9: whenever `parse` succeeds its result is non-negative: no string
decodes to a negative Integer Value (there is no sign handling and every
accepted digit contributes a non-negative value). -/
theorem C9_parse_nonneg (s : List Char) (base : Nat) (v : Int)
    (h : convert_to_decimal s base = .ok v) : 0 ≤ v := by
  by_cases hne : pyStrip s = []
  · rw [convert_to_decimal, if_pos (by simpa [List.isEmpty_iff] using hne)] at h
    exact absurd h (by simp)
  · rw [convert_to_decimal_of_strip_ne s base hne] at h
    exact parseDigits_nonneg base (pyStrip s) 0 v le_rfl h

/-- C9 witness: `parse("7", 10)` succeeds with the non-negative value 7. -/
theorem C9_parse_nonneg_witness :
    convert_to_decimal ['7'] 10 = .ok 7 ∧ (0 : Int) ≤ 7 :=
  ⟨rfl, C9_parse_nonneg ['7'] 10 7 rfl⟩

/-! ### Input-filter lemmas -/

theorem char_range_digit : ∀ n, 48 ≤ n → n ≤ 57 →
    valueFor (Char.ofNat n) = some ((Char.ofNat n).toNat - '0'.toNat) ∧
      DIGIT_MAP.getD ((Char.ofNat n).toNat - '0'.toNat) ' ' = Char.ofNat n := by
  intro n h1 h2
  interval_cases n <;> exact ⟨rfl, rfl⟩

theorem char_range_upper : ∀ n, 65 ≤ n → n ≤ 90 →
    valueFor (Char.ofNat n) = some ((Char.ofNat n).toNat - 'A'.toNat + 10) ∧
      DIGIT_MAP.getD ((Char.ofNat n).toNat - 'A'.toNat + 10) ' ' = Char.ofNat n := by
  intro n h1 h2
  interval_cases n <;> exact ⟨rfl, rfl⟩

theorem char_range_lower : ∀ n, 97 ≤ n → n ≤ 122 →
    valueFor (Char.ofNat n) = some ((Char.ofNat n).toNat - 'a'.toNat + 36) ∧
      DIGIT_MAP.getD ((Char.ofNat n).toNat - 'a'.toNat + 36) ' ' = Char.ofNat n := by
  intro n h1 h2
  interval_cases n <;> exact ⟨rfl, rfl⟩

theorem charIdx_some_spec (base : Nat) (c : Char) (i : Nat)
    (h : charIdx base c = some i) :
    valueFor c = some i ∧ DIGIT_MAP.getD i ' ' = c := by
  unfold charIdx at h
  split_ifs at h with h1 h2 h3 h4 h5
  · obtain rfl : c.toNat - '0'.toNat = i := Option.some.inj h
    have := char_range_digit c.toNat (Char.le_def.mp h1.1) (Char.le_def.mp h1.2)
    rwa [Char.ofNat_toNat] at this
  · obtain rfl : c.toNat - 'A'.toNat + 10 = i := Option.some.inj h
    have := char_range_upper c.toNat (Char.le_def.mp h2.1) (Char.le_def.mp h2.2)
    rwa [Char.ofNat_toNat] at this
  · obtain rfl : c.toNat - 'a'.toNat + 36 = i := Option.some.inj h
    have := char_range_lower c.toNat (Char.le_def.mp h3.1) (Char.le_def.mp h3.2)
    rwa [Char.ofNat_toNat] at this
  · obtain rfl : (62 : Nat) = i := Option.some.inj h
    rw [h4.1]
    exact ⟨rfl, rfl⟩
  · obtain rfl : (63 : Nat) = i := Option.some.inj h
    rw [h5.1]
    exact ⟨rfl, rfl⟩

theorem getD_DIGIT_MAP_ranges : ∀ d < 64,
    ('0' ≤ DIGIT_MAP.getD d ' ' ∧ DIGIT_MAP.getD d ' ' ≤ '9') ∨
      ('A' ≤ DIGIT_MAP.getD d ' ' ∧ DIGIT_MAP.getD d ' ' ≤ 'Z') ∨
      ('a' ≤ DIGIT_MAP.getD d ' ' ∧ DIGIT_MAP.getD d ' ' ≤ 'z') ∨
      DIGIT_MAP.getD d ' ' = '+' ∨ DIGIT_MAP.getD d ' ' = '/' := by
  decide

theorem mem_DIGIT_MAP_cases (c : Char) (h : c ∈ DIGIT_MAP) :
    ('0' ≤ c ∧ c ≤ '9') ∨ ('A' ≤ c ∧ c ≤ 'Z') ∨ ('a' ≤ c ∧ c ≤ 'z') ∨
      c = '+' ∨ c = '/' := by
  obtain ⟨i, hi, rfl⟩ := List.mem_iff_getElem.mp h
  have hi64 : i < 64 := by
    have hlen : DIGIT_MAP.length = 64 := rfl
    omega
  have hr := getD_DIGIT_MAP_ranges i hi64
  rwa [List.getD_eq_getElem DIGIT_MAP ' ' hi] at hr

theorem charIdx_none_spec (base : Nat) (c : Char) (h : charIdx base c = none) :
    valueFor c = none ∨ (valueFor c = some 62 ∧ base ≤ 62) ∨
      (valueFor c = some 63 ∧ base ≤ 63) := by
  unfold charIdx at h
  split_ifs at h with h1 h2 h3 h4 h5
  push_neg at h4 h5
  by_cases hp : c = '+'
  · subst hp
    exact Or.inr (Or.inl ⟨rfl, h4 rfl⟩)
  by_cases hs : c = '/'
  · subst hs
    exact Or.inr (Or.inr ⟨rfl, h5 rfl⟩)
  left
  apply valueFor_eq_none_of_not_mem
  intro hmem
  rcases mem_DIGIT_MAP_cases c hmem with hc | hc | hc | hc | hc
  · exact h1 hc
  · exact h2 hc
  · exact h3 hc
  · exact hp hc
  · exact hs hc

theorem filterInput_eq_filter (s : List Char) (base : Nat) :
    filterInput s base
      = s.filter (fun c => (valueFor c).any (fun v => decide (v < base))) := by
  induction s with
  | nil => rfl
  | cons c cs ih =>
    rw [filterInput, List.filter_cons]
    cases hci : charIdx base c with
    | none =>
      show filterInput cs base = _
      rcases charIdx_none_spec base c hci with hv | ⟨hv, hb⟩ | ⟨hv, hb⟩
      · simp [hv, ih]
      · simp [hv, ih, Nat.not_lt.mpr hb]
      · simp [hv, ih, Nat.not_lt.mpr hb]
    | some i =>
      obtain ⟨hv, hg⟩ := charIdx_some_spec base c i hci
      show (if i < base then DIGIT_MAP.getD i ' ' :: filterInput cs base
        else filterInput cs base) = _
      by_cases hib : i < base
      · rw [if_pos hib, hg]
        simp [hv, hib, ih]
      · rw [if_neg hib]
        simp [hv, hib, ih]

theorem mem_filterInput (s : List Char) (base : Nat) :
    ∀ c ∈ filterInput s base, ∃ i, valueFor c = some i ∧ i < base := by
  intro c hc
  rw [filterInput_eq_filter] at hc
  obtain ⟨-, hp⟩ := List.mem_filter.mp hc
  cases hv : valueFor c with
  | none => rw [hv] at hp; cases hp
  | some i =>
    rw [hv] at hp
    exact ⟨i, rfl, by simpa using hp⟩

theorem DIGIT_MAP_no_space : ∀ c ∈ DIGIT_MAP, isPySpace c = false := by
  decide

/-- C7: live-input filtering is idempotent, and `filterInput` returns
exactly the subsequence of characters whose digit value is strictly
below the radix (characters outside the alphabet are dropped). -/
theorem C7_filter_idempotent (s : List Char) (base : Nat) :
    filterInput (filterInput s base) base = filterInput s base ∧
      filterInput s base
        = s.filter (fun c => (valueFor c).any (fun v => decide (v < base))) := by
  refine ⟨?_, filterInput_eq_filter s base⟩
  rw [filterInput_eq_filter, filterInput_eq_filter, List.filter_filter]
  congr 1
  funext a
  exact Bool.and_self _

/-- C10: parsing a filtered string never fails with `InvalidDigit`:
every surviving character is a legal digit, so the parse either succeeds
or — exactly when the filtered string is empty — fails with
`EmptyInput`. -/
theorem C10_filtered_parses (s : List Char) (base : Nat) :
    (∀ c r, convert_to_decimal (filterInput s base) base
        ≠ .error (.InvalidDigit c r)) ∧
    ((filterInput s base = [] ∧
        convert_to_decimal (filterInput s base) base = .error .EmptyInput) ∨
      ∃ v, convert_to_decimal (filterInput s base) base = .ok v) := by
  have main : (filterInput s base = [] ∧
      convert_to_decimal (filterInput s base) base = .error .EmptyInput) ∨
      ∃ v, convert_to_decimal (filterInput s base) base = .ok v := by
    by_cases hf : filterInput s base = []
    · exact Or.inl ⟨hf, by rw [hf]; rfl⟩
    · refine Or.inr ?_
      have hval := mem_filterInput s base
      have hnospace : ∀ c ∈ filterInput s base, isPySpace c = false := by
        intro c hc
        obtain ⟨i, hv, _⟩ := hval c hc
        have hmem : c ∈ DIGIT_MAP := by
          by_contra hnm
          rw [valueFor_eq_none_of_not_mem c hnm] at hv
          cases hv
        exact DIGIT_MAP_no_space c hmem
      have hstrip := pyStrip_eq_self _ hnospace
      have hvalid : ∀ c ∈ filterInput s base,
          ¬(digitIndex c < 0 ∨ (base : Int) ≤ digitIndex c) := by
        intro c hc
        obtain ⟨i, hv, hib⟩ := hval c hc
        have hd : digitIndex c = (i : Int) := by rw [digitIndex, hv]
        rw [hd]
        push_neg
        exact ⟨by positivity, by exact_mod_cast hib⟩
      rw [convert_to_decimal_of_strip_ne _ _ (by rw [hstrip]; exact hf), hstrip,
        parseDigits_ok_of_valid base _ hvalid 0]
      exact ⟨_, rfl⟩
  refine ⟨?_, main⟩
  intro c r
  rcases main with ⟨-, he⟩ | ⟨v, hv⟩
  · rw [he]
    intro hcon
    exact ParseError.noConfusion (Except.error.inj hcon)
  · rw [hv]
    intro hcon
    exact Except.noConfusion hcon

/-- C7 witness: filtering `"G1"` for radix 16 is idempotent. -/
theorem C7_filter_idempotent_witness :
    filterInput (filterInput ['G', '1'] 16) 16 = filterInput ['G', '1'] 16 :=
  (C7_filter_idempotent ['G', '1'] 16).1

/-- C10 witness: filtering `"-1"` for radix 10 leaves a string that
parses successfully. -/
theorem C10_filtered_parses_witness :
    ∃ v, convert_to_decimal (filterInput ['-', '1'] 10) 10 = .ok v := by
  rcases (C10_filtered_parses ['-', '1'] 10).2 with ⟨hnil, -⟩ | h
  · exact absurd hnil (by decide)
  · exact h

end BaseCalc
